import Mathlib

/-!
Shallow embedding of the QuantumLab quantum-circuit simulator
(`quantum-core.js`, `quantum-gates.js`, `quantum-simulator.js`).

Modelling conventions:
* JavaScript numbers are modelled as real numbers (`ℝ`); the source's
  floating-point literals `1e-10`, `1e-9`, `0.9` are written `1/10^10`,
  `1/10^9`, `9/10`.
* JavaScript functions that can `throw` are embedded as `Except QError _`;
  functions with no `throw` statement are embedded as plain total functions.
* Arrays of amplitudes are embedded as functions `ℕ → Complex` together with
  the owning state's `dimension`; every source loop runs over indices
  `< dimension`, and freshly allocated arrays are `0` outside that range.
* Accumulation loops (`sum += …`) over `+` are embedded as finite sums over
  `Finset.range`, which computes the same value in the same index order.
-/

open scoped Classical

noncomputable section

namespace QuantumLab

/-- ASCII upper-casing of a string, character by character: the behavior of
JavaScript's `toUpperCase()` on the gate names of this repository. -/
def jsToUpper (s : String) : String := ⟨s.data.map Char.toUpper⟩

/-- Error taxonomy of the simulator: each case corresponds to one family of
`throw new Error(...)` sites in the source.  `typeError` is the JavaScript
runtime `TypeError` raised by an assignment to a `const` binding. -/
inductive QError where
  | divisionByZero
  | dimensionMismatch
  | notSquare
  | invalidDimension
  | zeroState
  | gateSizeNotPowerOfTwo
  | gateArityMismatch
  | unknownGate
  | missingParameter
  | qubitIndexOutOfRange
  | qubitCountMismatch
  | typeError
  deriving DecidableEq, Repr

/-- Embedding of the source's `Complex` class: a pair of (real-modelled)
JavaScript numbers. -/
structure Complex where
  re : ℝ
  im : ℝ

namespace Complex

theorem ext_iff {z w : Complex} : z = w ↔ z.re = w.re ∧ z.im = w.im := by
  cases z; cases w; simp

/-- Embedding of `Complex.fromPolar(magnitude, angle)`. -/
def fromPolar (magnitude angle : ℝ) : Complex :=
  ⟨magnitude * Real.cos angle, magnitude * Real.sin angle⟩

/-- Embedding of `Complex.prototype.add`. -/
def add (z w : Complex) : Complex := ⟨z.re + w.re, z.im + w.im⟩

/-- Embedding of `Complex.prototype.subtract`. -/
def subtract (z w : Complex) : Complex := ⟨z.re - w.re, z.im - w.im⟩

/-- Embedding of `Complex.prototype.multiply`. -/
def multiply (z w : Complex) : Complex :=
  ⟨z.re * w.re - z.im * w.im, z.re * w.im + z.im * w.re⟩

/-- Embedding of `Complex.prototype.divide`.  The source computes the
denominator `re² + im²` and divides with no zero test and no `throw`; the
function is total. -/
def divide (z w : Complex) : Complex :=
  ⟨(z.re * w.re + z.im * w.im) / (w.re * w.re + w.im * w.im),
   (z.im * w.re - z.re * w.im) / (w.re * w.re + w.im * w.im)⟩

/-- Embedding of `Complex.prototype.magnitude`. -/
def magnitude (z : Complex) : ℝ := Real.sqrt (z.re * z.re + z.im * z.im)

/-- Two-argument arctangent, the semantics of JavaScript `Math.atan2`. -/
def atan2 (y x : ℝ) : ℝ :=
  if 0 < x then Real.arctan (y / x)
  else if x < 0 ∧ 0 ≤ y then Real.arctan (y / x) + Real.pi
  else if x < 0 then Real.arctan (y / x) - Real.pi
  else if 0 < y then Real.pi / 2
  else if y < 0 then -(Real.pi / 2)
  else 0

/-- Embedding of `Complex.prototype.phase`. -/
def phase (z : Complex) : ℝ := atan2 z.im z.re

/-- Embedding of `Complex.prototype.conjugate`. -/
def conjugate (z : Complex) : Complex := ⟨z.re, -z.im⟩

/-- The zero complex value `new Complex(0, 0)`. -/
def zero : Complex := ⟨0, 0⟩

instance : Zero Complex := ⟨zero⟩

instance : Add Complex := ⟨add⟩

theorem zero_def : (0 : Complex) = ⟨0, 0⟩ := rfl

theorem add_def (z w : Complex) : z + w = ⟨z.re + w.re, z.im + w.im⟩ := rfl

instance : AddCommMonoid Complex where
  add_assoc a b c := by cases a; cases b; cases c; simp [add_def]; constructor <;> ring
  zero_add a := by cases a; simp [add_def, zero_def]
  add_zero a := by cases a; simp [add_def, zero_def]
  add_comm a b := by cases a; cases b; simp [add_def]; constructor <;> ring
  nsmul := nsmulRec

/-- The squared magnitude `magnitude() ** 2` that the source uses for every
probability computation. -/
def magSq (z : Complex) : ℝ := (magnitude z) ^ 2

theorem magSq_eq (z : Complex) : magSq z = z.re * z.re + z.im * z.im := by
  have h : (0:ℝ) ≤ z.re * z.re + z.im * z.im :=
    add_nonneg (mul_self_nonneg _) (mul_self_nonneg _)
  simp [magSq, magnitude, Real.sq_sqrt h]

theorem magSq_nonneg (z : Complex) : 0 ≤ magSq z := by
  rw [magSq_eq]
  exact add_nonneg (mul_self_nonneg _) (mul_self_nonneg _)

theorem magSq_zero : magSq 0 = 0 := by
  rw [magSq_eq]
  show (0:ℝ) * 0 + 0 * 0 = 0
  ring

end Complex

/-- Embedding of the source's `Matrix` class: row and column counts plus the
entry grid `data`, embedded as a total function (entries outside
`[0, rows) × [0, cols)` are never read by the embedded operations). -/
structure Matrix where
  rows : ℕ
  cols : ℕ
  data : ℕ → ℕ → Complex

namespace Matrix

/-- Embedding of `Matrix.identity(size)`. -/
def identity (size : ℕ) : Matrix :=
  ⟨size, size, fun i j => if i = j ∧ i < size then ⟨1, 0⟩ else 0⟩

/-- Embedding of `Matrix.fromArray(arr)`: `rows = arr.length`,
`cols = arr[0].length`, entries read from the nested array. -/
def fromArray (arr : List (List Complex)) : Matrix :=
  ⟨arr.length, (arr.getD 0 []).length, fun i j => (arr.getD i []).getD j 0⟩

/-- Embedding of `Matrix.prototype.multiply` (the entry grid; the source
throws `DimensionMismatch` when `cols(A) ≠ rows(B)`, a case no embedded call
site reaches). -/
def multiply (A B : Matrix) : Matrix :=
  ⟨A.rows, B.cols, fun i j =>
    ∑ k ∈ Finset.range A.cols, (A.data i k).multiply (B.data k j)⟩

/-- Embedding of `Matrix.prototype.transpose`. -/
def transpose (A : Matrix) : Matrix :=
  ⟨A.cols, A.rows, fun i j => A.data j i⟩

/-- Embedding of `Matrix.prototype.conjugate`. -/
def conjugate (A : Matrix) : Matrix :=
  ⟨A.rows, A.cols, fun i j => (A.data i j).conjugate⟩

/-- Embedding of `Matrix.prototype.dagger = conjugate().transpose()`. -/
def dagger (A : Matrix) : Matrix := A.conjugate.transpose

/-- Embedding of `Matrix.prototype.isUnitary(tolerance)`: the source compares
every entry of `M · M†` in the range `rows × cols` of `M` itself against
`identity(rows)` and returns `true` iff every difference magnitude is within
tolerance. -/
def isUnitary (A : Matrix) (tolerance : ℝ) : Prop :=
  ∀ i < A.rows, ∀ j < A.cols,
    ((A.multiply A.dagger).data i j |>.subtract ((identity A.rows).data i j)).magnitude
      ≤ tolerance

end Matrix

/-- Metadata record of the source's `QuantumGates.getGateInfo` table. -/
structure GateInfo where
  name : String
  qubits : ℕ
  params : ℕ
  deriving DecidableEq, Repr

namespace QuantumGates

/-- Embedding of `QuantumGates.Hadamard()`. -/
def Hadamard : Matrix :=
  Matrix.fromArray [[⟨1 / Real.sqrt 2, 0⟩, ⟨1 / Real.sqrt 2, 0⟩],
                    [⟨1 / Real.sqrt 2, 0⟩, ⟨-(1 / Real.sqrt 2), 0⟩]]

/-- Embedding of `QuantumGates.PauliX()`. -/
def PauliX : Matrix :=
  Matrix.fromArray [[⟨0, 0⟩, ⟨1, 0⟩], [⟨1, 0⟩, ⟨0, 0⟩]]

/-- Embedding of `QuantumGates.PauliY()`. -/
def PauliY : Matrix :=
  Matrix.fromArray [[⟨0, 0⟩, ⟨0, -1⟩], [⟨0, 1⟩, ⟨0, 0⟩]]

/-- Embedding of `QuantumGates.PauliZ()`. -/
def PauliZ : Matrix :=
  Matrix.fromArray [[⟨1, 0⟩, ⟨0, 0⟩], [⟨0, 0⟩, ⟨-1, 0⟩]]

/-- Embedding of `QuantumGates.Phase()` (the S gate). -/
def Phase : Matrix :=
  Matrix.fromArray [[⟨1, 0⟩, ⟨0, 0⟩], [⟨0, 0⟩, ⟨0, 1⟩]]

/-- Embedding of `QuantumGates.T()`. -/
def Tgate : Matrix :=
  Matrix.fromArray [[⟨1, 0⟩, ⟨0, 0⟩],
                    [⟨0, 0⟩, ⟨1 / Real.sqrt 2, 1 / Real.sqrt 2⟩]]

/-- Embedding of `QuantumGates.RotationX(theta)`. -/
def RotationX (theta : ℝ) : Matrix :=
  Matrix.fromArray [[⟨Real.cos (theta / 2), 0⟩, ⟨0, -Real.sin (theta / 2)⟩],
                    [⟨0, -Real.sin (theta / 2)⟩, ⟨Real.cos (theta / 2), 0⟩]]

/-- Embedding of `QuantumGates.RotationY(theta)`. -/
def RotationY (theta : ℝ) : Matrix :=
  Matrix.fromArray [[⟨Real.cos (theta / 2), 0⟩, ⟨-Real.sin (theta / 2), 0⟩],
                    [⟨Real.sin (theta / 2), 0⟩, ⟨Real.cos (theta / 2), 0⟩]]

/-- Embedding of `QuantumGates.RotationZ(theta)`. -/
def RotationZ (theta : ℝ) : Matrix :=
  Matrix.fromArray [[Complex.fromPolar 1 (-(theta / 2)), ⟨0, 0⟩],
                    [⟨0, 0⟩, Complex.fromPolar 1 (theta / 2)]]

/-- Embedding of `QuantumGates.CNOT()`. -/
def CNOT : Matrix :=
  Matrix.fromArray
    [[⟨1,0⟩, ⟨0,0⟩, ⟨0,0⟩, ⟨0,0⟩],
     [⟨0,0⟩, ⟨1,0⟩, ⟨0,0⟩, ⟨0,0⟩],
     [⟨0,0⟩, ⟨0,0⟩, ⟨0,0⟩, ⟨1,0⟩],
     [⟨0,0⟩, ⟨0,0⟩, ⟨1,0⟩, ⟨0,0⟩]]

/-- Embedding of `QuantumGates.CZ()`. -/
def CZ : Matrix :=
  Matrix.fromArray
    [[⟨1,0⟩, ⟨0,0⟩, ⟨0,0⟩, ⟨0,0⟩],
     [⟨0,0⟩, ⟨1,0⟩, ⟨0,0⟩, ⟨0,0⟩],
     [⟨0,0⟩, ⟨0,0⟩, ⟨1,0⟩, ⟨0,0⟩],
     [⟨0,0⟩, ⟨0,0⟩, ⟨0,0⟩, ⟨-1,0⟩]]

/-- Embedding of `QuantumGates.CRZ(angle)`. -/
def CRZ (angle : ℝ) : Matrix :=
  Matrix.fromArray
    [[⟨1,0⟩, ⟨0,0⟩, ⟨0,0⟩, ⟨0,0⟩],
     [⟨0,0⟩, ⟨1,0⟩, ⟨0,0⟩, ⟨0,0⟩],
     [⟨0,0⟩, ⟨0,0⟩, Complex.fromPolar 1 (-(angle / 2)), ⟨0,0⟩],
     [⟨0,0⟩, ⟨0,0⟩, ⟨0,0⟩, Complex.fromPolar 1 (angle / 2)]]

/-- Embedding of `QuantumGates.SWAP()`. -/
def SWAP : Matrix :=
  Matrix.fromArray
    [[⟨1,0⟩, ⟨0,0⟩, ⟨0,0⟩, ⟨0,0⟩],
     [⟨0,0⟩, ⟨0,0⟩, ⟨1,0⟩, ⟨0,0⟩],
     [⟨0,0⟩, ⟨1,0⟩, ⟨0,0⟩, ⟨0,0⟩],
     [⟨0,0⟩, ⟨0,0⟩, ⟨0,0⟩, ⟨1,0⟩]]

/-- Embedding of `QuantumGates.Toffoli()`: `identity(8)` with the
`{6,7} × {6,7}` block overwritten to swap the last two basis states. -/
def Toffoli : Matrix :=
  ⟨8, 8, fun i j =>
    if (i = 6 ∧ j = 7) ∨ (i = 7 ∧ j = 6) then ⟨1, 0⟩
    else if (i = 6 ∧ j = 6) ∨ (i = 7 ∧ j = 7) then ⟨0, 0⟩
    else (Matrix.identity 8).data i j⟩

/-- Embedding of `QuantumGates.Fredkin()`: `identity(8)` with the
`{5,6} × {5,6}` block overwritten. -/
def Fredkin : Matrix :=
  ⟨8, 8, fun i j =>
    if (i = 5 ∧ j = 6) ∨ (i = 6 ∧ j = 5) then ⟨1, 0⟩
    else if (i = 5 ∧ j = 5) ∨ (i = 6 ∧ j = 6) then ⟨0, 0⟩
    else (Matrix.identity 8).data i j⟩

/-- Embedding of `QuantumGates.U(theta, phi, lambda)`.  The source's nested
array literal has FOUR rows of two entries each, so `fromArray` yields a
4 × 2 matrix. -/
def U (theta phi lambda : ℝ) : Matrix :=
  Matrix.fromArray
    [[⟨Real.cos (theta / 2), 0⟩, ⟨0, 0⟩],
     [⟨0, 0⟩, ⟨Real.cos (theta / 2) * (Complex.fromPolar 1 lambda).re,
              Real.cos (theta / 2) * (Complex.fromPolar 1 lambda).im⟩],
     [⟨0, 0⟩, ⟨Real.sin (theta / 2) * (Complex.fromPolar 1 phi).re,
              Real.sin (theta / 2) * (Complex.fromPolar 1 phi).im⟩],
     [⟨-Real.sin (theta / 2), 0⟩,
      ⟨Real.cos (theta / 2) * (Complex.fromPolar 1 (phi + lambda)).re,
       Real.cos (theta / 2) * (Complex.fromPolar 1 (phi + lambda)).im⟩]]

/-- Embedding of `QuantumGates.Rk(k)`. -/
def Rk (k : ℝ) : Matrix :=
  Matrix.fromArray [[⟨1, 0⟩, ⟨0, 0⟩],
                    [⟨0, 0⟩, Complex.fromPolar 1 (2 * Real.pi / (2 : ℝ) ^ k)]]

/-- Embedding of `QuantumGates.getGate(gateName, ...params)`: case-insensitive
dispatch over canonical names and aliases; parameterized gates throw
`MissingParameter` when their arguments are absent, unrecognized names throw
`UnknownGate`.  The variadic `params` rest argument is embedded as a list. -/
def getGate (gateName : String) (params : List ℝ) : Except QError Matrix :=
  let u := jsToUpper gateName
  if u = "H" ∨ u = "HADAMARD" then .ok Hadamard
  else if u = "X" ∨ u = "PAULI_X" then .ok PauliX
  else if u = "Y" ∨ u = "PAULI_Y" then .ok PauliY
  else if u = "Z" ∨ u = "PAULI_Z" then .ok PauliZ
  else if u = "S" ∨ u = "PHASE" then .ok Phase
  else if u = "T" ∨ u = "T_GATE" then .ok Tgate
  else if u = "RX" ∨ u = "ROTATION_X" then
    match params with
    | [] => .error .missingParameter
    | p :: _ => .ok (RotationX p)
  else if u = "RY" ∨ u = "ROTATION_Y" then
    match params with
    | [] => .error .missingParameter
    | p :: _ => .ok (RotationY p)
  else if u = "RZ" ∨ u = "ROTATION_Z" then
    match params with
    | [] => .error .missingParameter
    | p :: _ => .ok (RotationZ p)
  else if u = "CNOT" ∨ u = "CONTROLLED_NOT" then .ok CNOT
  else if u = "CZ" ∨ u = "CONTROLLED_Z" then .ok CZ
  else if u = "CRZ" ∨ u = "CONTROLLED_RZ" then
    match params with
    | [] => .error .missingParameter
    | p :: _ => .ok (CRZ p)
  else if u = "SWAP" then .ok SWAP
  else if u = "TOFFOLI" ∨ u = "CCNOT" then .ok Toffoli
  else if u = "FREDKIN" ∨ u = "CSWAP" then .ok Fredkin
  else if u = "U" then
    match params with
    | p0 :: p1 :: p2 :: _ => .ok (U p0 p1 p2)
    | _ => .error .missingParameter
  else if u = "RK" then
    match params with
    | [] => .error .missingParameter
    | p :: _ => .ok (Rk p)
  else .error .unknownGate

/-- The object literal inside `QuantumGates.getGateInfo`, embedded as an
association list in source order. -/
def gateInfoTable : List (String × GateInfo) :=
  [("H", ⟨"Hadamard", 1, 0⟩),
   ("X", ⟨"Pauli-X", 1, 0⟩),
   ("Y", ⟨"Pauli-Y", 1, 0⟩),
   ("Z", ⟨"Pauli-Z", 1, 0⟩),
   ("S", ⟨"Phase", 1, 0⟩),
   ("T", ⟨"T-Gate", 1, 0⟩),
   ("RX", ⟨"Rotation-X", 1, 1⟩),
   ("RY", ⟨"Rotation-Y", 1, 1⟩),
   ("RZ", ⟨"Rotation-Z", 1, 1⟩),
   ("CNOT", ⟨"Controlled-NOT", 2, 0⟩),
   ("CZ", ⟨"Controlled-Z", 2, 0⟩),
   ("SWAP", ⟨"SWAP", 2, 0⟩),
   ("TOFFOLI", ⟨"Toffoli", 3, 0⟩),
   ("FREDKIN", ⟨"Fredkin", 3, 0⟩)]

/-- Embedding of `QuantumGates.getGateInfo(gateName)`:
`info[gateName.toUpperCase()] || null`. -/
def getGateInfo (gateName : String) : Option GateInfo :=
  gateInfoTable.lookup (jsToUpper gateName)

end QuantumGates

/-- Value of the JavaScript expression `(i >> (n - 1 - q)) & 1`: the bit of
basis index `i` belonging to qubit `q` in an `n`-qubit register (qubit 0 is
the most significant bit). -/
def bitOf (n q i : ℕ) : ℕ := i / 2 ^ (n - 1 - q) % 2

/-- Embedding of the source's `QuantumState` class.  The amplitude array of
length `2^numQubits` is embedded as a function on `ℕ`; freshly built arrays
are `0` outside `[0, 2^numQubits)`. -/
structure QuantumState where
  numQubits : ℕ
  amplitudes : ℕ → Complex

namespace QuantumState

/-- The `dimension` field set by the constructor: `Math.pow(2, numQubits)`. -/
def dimension (s : QuantumState) : ℕ := 2 ^ s.numQubits

/-- Embedding of `new QuantumState(numQubits)`: the all-zero register
`|0…0⟩`. -/
def init (numQubits : ℕ) : QuantumState :=
  ⟨numQubits, fun i => if i = 0 then ⟨1, 0⟩ else 0⟩

/-- Total squared amplitude norm `Σ|amp_i|²` of the state, the quantity the
source accumulates with `amp.magnitude() * amp.magnitude()` loops. -/
def normSq (s : QuantumState) : ℝ :=
  ∑ i ∈ Finset.range s.dimension, (s.amplitudes i).magSq

/-- Embedding of `QuantumState.prototype.normalize()`: fails with `ZeroState`
when `sqrt(Σ|amp_i|²) < 1e-10`, otherwise divides every amplitude by the
complex value `(norm, 0)`. -/
def normalize (s : QuantumState) : Except QError QuantumState :=
  let norm := Real.sqrt s.normSq
  if norm < 1 / 10 ^ 10 then .error .zeroState
  else .ok ⟨s.numQubits, fun i => (s.amplitudes i).divide ⟨norm, 0⟩⟩

/-- Embedding of `QuantumState.fromAmplitudes(amplitudes)` for a caller array
of `Complex` values: the length must be an exact power of two
(`Number.isInteger(Math.log2(length))`), the pre-normalization norm must not
be below `1e-10`, then the state is built from clones of the input values and
normalized. -/
def fromAmplitudes (values : List Complex) : Except QError QuantumState :=
  if ∃ n : ℕ, values.length = 2 ^ n then
    let norm := Real.sqrt ((values.map Complex.magSq).sum)
    if norm < 1 / 10 ^ 10 then .error .zeroState
    else normalize ⟨Nat.log2 values.length, fun i => values.getD i 0⟩
  else .error .invalidDimension

/-- Sub-index of basis index `i` restricted to the ordered target-qubit
positions: the source folds `targetIndex = (targetIndex << 1) | iBit` over
`targetQubits` in order, most-significant target first. -/
def subIndex (n : ℕ) (targetQubits : List ℕ) (i : ℕ) : ℕ :=
  targetQubits.foldl (fun acc q => 2 * acc + bitOf n q i) 0

/-- Transition predicate of `createFullGateMatrix`: a transition `j → i` is
allowed when every qubit outside `targetQubits` has the same bit value in `i`
and in `j` (the source iterates `controlQubits`, the qubits filtered out of
`allQubits`). -/
def transitionAllowed (n : ℕ) (targetQubits : List ℕ) (i j : ℕ) : Prop :=
  ∀ q ∈ (List.range n).filter (fun q => q ∉ targetQubits),
    bitOf n q i = bitOf n q j

/-- Embedding of `QuantumState.prototype.createFullGateMatrix`: the gate size
must be a power of two and `targetQubits.length` must equal
`log2(gateSize)`, else the call throws; the full `d × d` operator is then
built entry by entry: entry `(i, j)` is `0` when the transition is not
allowed, and `gateMatrix[subI][subJ]` otherwise (the identity
initialization is overwritten at every index pair). -/
def createFullGateMatrix (s : QuantumState) (gateMatrix : Matrix)
    (targetQubits : List ℕ) : Except QError Matrix :=
  if ∃ k : ℕ, gateMatrix.rows = 2 ^ k then
    if targetQubits.length ≠ Nat.log2 gateMatrix.rows then
      .error .gateArityMismatch
    else
      .ok ⟨s.dimension, s.dimension, fun i j =>
        if transitionAllowed s.numQubits targetQubits i j then
          gateMatrix.data (subIndex s.numQubits targetQubits i)
            (subIndex s.numQubits targetQubits j)
        else 0⟩
  else .error .gateSizeNotPowerOfTwo

/-- Embedding of `QuantumState.prototype.applyGate(gateMatrix, targetQubits)`:
builds the full operator and replaces the amplitude vector by the
matrix–vector product `|ψ'⟩ = U |ψ⟩` accumulated row by row. -/
def applyGate (s : QuantumState) (gateMatrix : Matrix)
    (targetQubits : List ℕ) : Except QError QuantumState := do
  let fullMatrix ← createFullGateMatrix s gateMatrix targetQubits
  .ok ⟨s.numQubits, fun i =>
    if i < s.dimension then
      ∑ j ∈ Finset.range s.dimension,
        (fullMatrix.data i j).multiply (s.amplitudes j)
    else 0⟩

end QuantumState

/-- Parameter object passed to `addGate`.  In the source this is a JavaScript
object; `position` models its optional `position` property and `angles` the
remaining numeric properties in insertion order, so that
`Object.values(params)` is `angles` followed by `position` when present
(matching how the UI builds `{angle…, position}`). -/
structure GateParams where
  position : Option ℝ := none
  angles : List ℝ := []

/-- The list `Object.values(params)` spread into `QuantumGates.getGate`. -/
def GateParams.values (p : GateParams) : List ℝ :=
  p.angles ++ p.position.toList

/-- A queued circuit operation: either a quantum gate record
`{name, targetQubits, params, matrix}` built by `addGate`, or a classical
pseudo-gate record `{name, type: 'classical', inputQubits, outputQubit,
position}` built by the UI layer. -/
inductive GateOp where
  | quantum (name : String) (targetQubits : List ℕ) (params : GateParams)
      (matrix : Matrix)
  | classical (name : String) (inputQubits : List ℕ) (outputQubit : ℕ)
      (position : ℝ)

namespace GateOp

/-- The JavaScript expression
`existingGate.targetQubits || existingGate.inputQubits || []`. -/
def qubitsList : GateOp → List ℕ
  | .quantum _ ts _ _ => ts
  | .classical _ inp _ _ => inp

/-- The JavaScript expression
`existingGate.params?.position || existingGate.position || i` for the gate at
list index `i`.  `||` takes the first truthy operand, so a recorded position
of `0` is skipped and the list index is used instead. -/
def effectivePosition (g : GateOp) (i : ℕ) : ℝ :=
  match g with
  | .quantum _ _ p _ =>
      match p.position with
      | some v => if v ≠ 0 then v else (i : ℝ)
      | none => (i : ℝ)
  | .classical _ _ _ pos => if pos ≠ 0 then pos else (i : ℝ)

end GateOp

/-- Result object returned by `measureQubit`. -/
structure MeasResult where
  qubit : ℕ
  result : ℕ
  probabilities : ℝ × ℝ

/-- A pending measurement slot `{qubit, result}`. -/
structure Measurement where
  qubit : ℕ
  result : Option MeasResult := none

/-- Snapshot record pushed per gate application during a shot. -/
structure GateRecord where
  gate : String
  targetQubits : List ℕ
  beforeState : QuantumState
  afterState : QuantumState

/-- Per-shot result record of `executeSingleShot`. -/
structure ShotResult where
  initialState : QuantumState
  finalState : QuantumState
  measurements : List MeasResult
  gateOperations : List GateRecord

/-- Embedding of the source's `QuantumCircuit` class. -/
structure QuantumCircuit where
  numQubits : ℕ
  gates : List GateOp
  measurements : List Measurement
  state : QuantumState
  executionHistory : List ShotResult

namespace QuantumCircuit

/-- Embedding of `new QuantumCircuit(numQubits)`. -/
def init (numQubits : ℕ) : QuantumCircuit :=
  ⟨numQubits, [], [], QuantumState.init numQubits, []⟩

/-- The insertion-point scan of `addGate` when `params.position` is supplied:
`insertIndex` starts at `gates.length`; each existing gate that shares a
target qubit and has effective position below the requested one moves
`insertIndex` past it; the scan breaks at the first gate whose effective
position is `≥` the requested one. -/
def insertScan (targetQubits : List ℕ) (position : ℝ) :
    List GateOp → ℕ → ℕ → ℕ
  | [], _, acc => acc
  | g :: rest, i, acc =>
      let ep := g.effectivePosition i
      if (g.qubitsList.any fun q => targetQubits.contains q) ∧ ep < position then
        insertScan targetQubits position rest (i + 1) (i + 1)
      else if ep ≥ position then acc
      else insertScan targetQubits position rest (i + 1) acc

/-- The full insertion-index computation of `addGate`. -/
def findInsertIndex (gates : List GateOp) (targetQubits : List ℕ)
    (position : ℝ) : ℕ :=
  insertScan targetQubits position gates 0 gates.length

/-- Embedding of `QuantumCircuit.prototype.addGate(gateName, targetQubits,
params)`: metadata lookup (`UnknownGate`), arity check
(`GateArityMismatch`), qubit-range check (`QubitIndexOutOfRange`; qubit
indices are modelled as naturals, so only the upper bound is expressible),
immediate matrix materialization, then position-based insertion or append. -/
def addGate (c : QuantumCircuit) (gateName : String) (targetQubits : List ℕ)
    (params : GateParams) : Except QError QuantumCircuit :=
  match QuantumGates.getGateInfo gateName with
  | none => .error .unknownGate
  | some gateInfo =>
    if targetQubits.length ≠ gateInfo.qubits then .error .gateArityMismatch
    else if ¬ (∀ q ∈ targetQubits, q < c.numQubits) then
      .error .qubitIndexOutOfRange
    else do
      let matrix ← QuantumGates.getGate gateName params.values
      let gate : GateOp := .quantum gateName targetQubits params matrix
      match params.position with
      | some position =>
          .ok {c with gates :=
            c.gates.insertIdx (findInsertIndex c.gates targetQubits position) gate}
      | none => .ok {c with gates := c.gates ++ [gate]}

/-- Embedding of `QuantumCircuit.prototype.addMeasurement(qubit)`. -/
def addMeasurement (c : QuantumCircuit) (qubit : ℕ) :
    Except QError QuantumCircuit :=
  if c.numQubits ≤ qubit then .error .qubitIndexOutOfRange
  else .ok {c with measurements := c.measurements ++ [⟨qubit, none⟩]}

/-- Embedding of `QuantumCircuit.prototype.reset()`: clears every
measurement's recorded result and the execution history; the quantum state is
deliberately left untouched. -/
def reset (c : QuantumCircuit) : QuantumCircuit :=
  {c with measurements := c.measurements.map fun m => {m with result := none},
          executionHistory := []}

/-- Embedding of the statement `prob += probability` where `prob` was
declared with `const`: class bodies are strict-mode code in JavaScript, so
an assignment to a `const` binding throws a `TypeError` at runtime. -/
def constAddAssign (_acc _probability : ℝ) : Except QError ℝ :=
  .error .typeError

/-- Embedding of `QuantumCircuit.prototype.getQubitProbabilities(qubit)`.
The source declares `const prob0 = 0` and `const prob1 = 0` and then
executes `prob0 += probability` / `prob1 += probability` inside the loop
over all basis indices, so the first iteration throws. -/
def getQubitProbabilities (c : QuantumCircuit) (q : ℕ) :
    Except QError (ℝ × ℝ) :=
  (List.range c.state.dimension).foldlM
    (fun (acc : ℝ × ℝ) i =>
      let bit := bitOf c.numQubits q i
      let probability := (c.state.amplitudes i).magSq
      if bit = 0 then
        (constAddAssign acc.1 probability).map fun p0 => (p0, acc.2)
      else
        (constAddAssign acc.2 probability).map fun p1 => (acc.1, p1))
    ((0 : ℝ), (0 : ℝ))

/-- Retained probability mass of `collapseQubit(qubit, result)`: the sum of
`|amp_i|²` over basis indices whose qubit bit equals `result`. -/
def retainedMass (c : QuantumCircuit) (q result : ℕ) : ℝ :=
  ∑ i ∈ Finset.range c.state.dimension,
    if bitOf c.numQubits q i = result then (c.state.amplitudes i).magSq else 0

/-- Embedding of `QuantumCircuit.prototype.collapseQubit(qubit, result)`:
build a fresh amplitude array keeping only the indices whose qubit bit
equals `result` while accumulating their probability mass; if that mass
exceeds `1e-10`, install the kept amplitudes divided by `(sqrt(mass), 0)`,
otherwise leave the state's amplitude array untouched. -/
def collapseQubit (c : QuantumCircuit) (q result : ℕ) : QuantumCircuit :=
  let d := c.state.dimension
  let newAmplitudes : ℕ → Complex := fun i =>
    if i < d ∧ bitOf c.numQubits q i = result then c.state.amplitudes i else 0
  let norm := retainedMass c q result
  if norm > 1 / 10 ^ 10 then
    {c with state := ⟨c.state.numQubits, fun i =>
      (newAmplitudes i).divide ⟨Real.sqrt norm, 0⟩⟩}
  else c

/-- Embedding of `QuantumCircuit.prototype.measureQubit(qubit)`: obtain the
pair of qubit probabilities, draw one uniform sample from the stream, pick
outcome 0 when the sample is below `p0`, collapse, and return the result
record together with the unconsumed part of the stream. -/
def measureQubit (c : QuantumCircuit) (q : ℕ) (rands : List ℝ) :
    Except QError (QuantumCircuit × MeasResult × List ℝ) := do
  let probabilities ← getQubitProbabilities c q
  let random := rands.headD 0
  let result := if random < probabilities.1 then 0 else 1
  let c' := collapseQubit c q result
  .ok (c', ⟨q, result, probabilities⟩, rands.tail)

/-- Target basis index built by the classical `AND`/`OR` branches:
`(stateIndex & ~outputBitMask) | (result << shift)` with JavaScript 32-bit
bitwise operators. -/
def classicalTarget (n outputQubit stateIndex result : ℕ) : ℕ :=
  let mask := 2 ^ (n - 1 - outputQubit)
  (stateIndex &&& (2 ^ 32 - 1 - mask)) ||| (result <<< (n - 1 - outputQubit))

/-- Embedding of `QuantumCircuit.prototype.applyClassicalGate(gate)` for the
three classical pseudo-gates.  `NOT` moves every amplitude to the index with
the output bit replaced by the flipped input bit (later indices overwrite
earlier ones, as in the source's in-order array stores).  `AND`/`OR` scan for
the first basis index whose amplitude magnitude exceeds `0.9`; when found,
the state is replaced by the exact basis vector at the computed target
index, otherwise nothing happens. -/
def applyClassicalGate (c : QuantumCircuit) (name : String)
    (inputQubits : List ℕ) (outputQubit : ℕ) : QuantumCircuit :=
  let numQubits := c.state.numQubits
  let dimension := 2 ^ numQubits
  if name = "NOT" then
    let inputQubit := inputQubits.getD 0 0
    let newAmplitudes := (List.range dimension).foldl
      (fun f i =>
        let inputBit := bitOf numQubits inputQubit i
        let flippedBit := 1 - inputBit
        let newStateIndex :=
          if flippedBit ≠ bitOf numQubits outputQubit i then
            i ^^^ 2 ^ (numQubits - 1 - outputQubit)
          else i
        Function.update f newStateIndex (c.state.amplitudes i))
      (fun _ => 0)
    {c with state := ⟨numQubits, newAmplitudes⟩}
  else if name = "AND" then
    match (List.range dimension).find?
        (fun i => (9:ℝ)/10 < (c.state.amplitudes i).magnitude) with
    | some stateIndex =>
        let bit1 := bitOf numQubits (inputQubits.getD 0 0) stateIndex
        let bit2 := bitOf numQubits (inputQubits.getD 1 0) stateIndex
        let andResult := bit1 &&& bit2
        let targetIndex := classicalTarget numQubits outputQubit stateIndex andResult
        {c with state := ⟨numQubits, fun i =>
          if i = targetIndex then ⟨1, 0⟩ else 0⟩}
    | none => c
  else if name = "OR" then
    match (List.range dimension).find?
        (fun i => (9:ℝ)/10 < (c.state.amplitudes i).magnitude) with
    | some stateIndex =>
        let bit1 := bitOf numQubits (inputQubits.getD 0 0) stateIndex
        let bit2 := bitOf numQubits (inputQubits.getD 1 0) stateIndex
        let orResult := bit1 ||| bit2
        let targetIndex := classicalTarget numQubits outputQubit stateIndex orResult
        {c with state := ⟨numQubits, fun i =>
          if i = targetIndex then ⟨1, 0⟩ else 0⟩}
    | none => c
  else c

/-- Gate loop of `executeSingleShot`: apply every queued gate in program
order (classical gates through `applyClassicalGate`, quantum gates through
`applyGate`), snapshotting the state before and after each gate. -/
def runGates : QuantumCircuit → List GateOp → List GateRecord →
    Except QError (QuantumCircuit × List GateRecord)
  | c, [], recs => .ok (c, recs)
  | c, g :: rest, recs =>
    let before := c.state
    match g with
    | .classical name inp outp _ =>
        let c' := applyClassicalGate c name inp outp
        runGates c' rest (recs ++ [⟨name, inp, before, c'.state⟩])
    | .quantum name ts _ m => do
        let st ← c.state.applyGate m ts
        runGates {c with state := st} rest (recs ++ [⟨name, ts, before, st⟩])

/-- Measurement loop of `executeSingleShot`: resolve every queued
measurement in registration order via `measureQubit`, recording each result
on its measurement slot. -/
def runMeasurements : QuantumCircuit → List Measurement → List ℝ →
    Except QError (QuantumCircuit × List Measurement × List MeasResult × List ℝ)
  | c, [], rands => .ok (c, [], [], rands)
  | c, m :: rest, rands => do
      let (c', res, rands') ← measureQubit c m.qubit rands
      let (c'', rest', results, rands'') ← runMeasurements c' rest rands'
      .ok (c'', {m with result := some res} :: rest', res :: results, rands'')

/-- Embedding of `QuantumCircuit.prototype.executeSingleShot()`: apply all
gates, perform all measurements, snapshot the final state and push the shot
record onto the execution history.  The uniform random source is threaded as
an explicit stream. -/
def executeSingleShot (c : QuantumCircuit) (rands : List ℝ) :
    Except QError (QuantumCircuit × ShotResult × List ℝ) := do
  let initialState := c.state
  let (c₁, gateOps) ← runGates c c.gates []
  let (c₂, meas', results, rands') ← runMeasurements c₁ c₁.measurements rands
  let c₃ := {c₂ with measurements := meas'}
  let shot : ShotResult := ⟨initialState, c₃.state, results, gateOps⟩
  .ok ({c₃ with executionHistory := c₃.executionHistory ++ [shot]}, shot, rands')

/-- Shot loop of `QuantumCircuit.prototype.run(shots)`: each shot first
calls `reset()` and then `executeSingleShot()`, collecting the per-shot
results in order. -/
def runLoop : QuantumCircuit → ℕ → List ℝ → List ShotResult →
    Except QError (QuantumCircuit × List ShotResult)
  | c, 0, _, results => .ok (c, results)
  | c, shots + 1, rands, results => do
      let (c', shot, rands') ← executeSingleShot c.reset rands
      runLoop c' shots rands' (results ++ [shot])

/-- Embedding of `QuantumCircuit.prototype.run(shots)`.  The final
`aggregateResults` statistics post-processing is not modelled; the claims
concern the circuit state and the raw per-shot results. -/
def run (c : QuantumCircuit) (shots : ℕ) (rands : List ℝ) :
    Except QError (QuantumCircuit × List ShotResult) :=
  runLoop c shots rands []

end QuantumCircuit

/-- Specification-side complex division, stated from the spec's words for
comparison with the source's `Complex.divide`: "divide fails with
`DivisionByZero` when the divisor's squared magnitude is ~0" (approximately
zero is read with the repo-wide tolerance `1e-10`). -/
def Complex.divideSpec (z w : Complex) : Except QError Complex :=
  if w.re * w.re + w.im * w.im < 1 / 10 ^ 10 then .error .divisionByZero
  else .ok (z.divide w)

instance : Inhabited GateOp := ⟨.classical "" [] 0 0⟩

/-- The fourteen canonical gate names of the metadata table. -/
def canonicalGateNames : List String :=
  ["H", "X", "Y", "Z", "S", "T", "RX", "RY", "RZ",
   "CNOT", "CZ", "SWAP", "TOFFOLI", "FREDKIN"]

/-! Theorems. -/

theorem Except.bind_error {α β : Type} (e : QError)
    (f : α → Except QError β) :
    (Except.error e : Except QError α) >>= f = .error e := rfl

theorem getQubitProbabilities_typeError (c : QuantumCircuit) (q : ℕ) :
    c.getQubitProbabilities q = .error .typeError := by
  unfold QuantumCircuit.getQubitProbabilities
  obtain ⟨k, hk⟩ : ∃ k, c.state.dimension = k + 1 :=
    ⟨c.state.dimension - 1,
      (Nat.succ_pred_eq_of_pos (Nat.two_pow_pos c.state.numQubits)).symm⟩
  rw [hk, List.range_succ_eq_map, List.foldlM_cons]
  by_cases h : bitOf c.numQubits q 0 = 0 <;>
    simp [h, QuantumCircuit.constAddAssign, Except.map, Except.bind_error]

/-- C1: `measureQubit(qubit)` is claimed to compute `[p0, p1]`, draw a
sample, return the outcome and collapse the state without raising an error.
In the source, `getQubitProbabilities` declares `const prob0 = 0` and
`const prob1 = 0` and then executes `prob0 += probability` /
`prob1 += probability` inside its loop; assignment to a `const` binding
throws a `TypeError` in JavaScript, and the loop body runs at least once
because the dimension `2^numQubits` is positive, so every call of
`measureQubit` raises instead of returning a result. -/
theorem measureQubit_always_raises (c : QuantumCircuit) (q : ℕ)
    (rands : List ℝ) :
    c.measureQubit q rands = .error .typeError := by
  unfold QuantumCircuit.measureQubit
  rw [getQubitProbabilities_typeError]
  rfl

/-- C3 counterexample: the claim says complex division fails with a
`DivisionByZero` error whenever the divisor's squared magnitude is
approximately zero.  The source's `divide` performs no zero test and
contains no `throw`: at the divisor `0` it returns the computed quotient
value rather than raising (in IEEE arithmetic the components are `NaN`; in
this real-valued model division by zero yields `0`), while the
specification-side `divideSpec` fails as the claim demands. -/
theorem divide_zero_divisor_returns :
    Complex.divide ⟨1, 0⟩ ⟨0, 0⟩ = ⟨0, 0⟩ ∧
      Complex.divideSpec ⟨1, 0⟩ ⟨0, 0⟩ = .error .divisionByZero := by
  constructor
  · unfold Complex.divide
    norm_num
  · unfold Complex.divideSpec
    norm_num

/-- C3 (amended): complex division performs no zero-divisor check and never
raises; for every divisor with nonzero squared magnitude it returns the
standard complex quotient — multiplying the result back by the divisor
recovers the dividend.  The remaining operations (add, subtract, multiply,
magnitude, phase, conjugate) are embedded as total functions, as in the
source. -/
theorem divide_is_standard_quotient (z w : Complex)
    (h : w.re * w.re + w.im * w.im ≠ 0) :
    (z.divide w).multiply w = z := by
  unfold Complex.divide Complex.multiply
  rw [Complex.ext_iff]
  constructor <;> · show _ = _; field_simp; ring

/-- Witness for the amended C3 theorem at dividend `1 + 2i` and divisor
`3 + 4i`. -/
theorem divide_is_standard_quotient_witness :
    (Complex.divide ⟨1, 2⟩ ⟨3, 4⟩).multiply ⟨3, 4⟩ = ⟨1, 2⟩ :=
  divide_is_standard_quotient ⟨1, 2⟩ ⟨3, 4⟩ (by norm_num)

theorem Complex.divide_real (a : Complex) (m : ℝ) (hm : m ≠ 0) :
    a.divide ⟨m, 0⟩ = ⟨a.re / m, a.im / m⟩ := by
  unfold Complex.divide
  rw [Complex.ext_iff]
  constructor <;> · show _ = _; field_simp; ring

theorem Complex.magSq_divide_real (a : Complex) (m : ℝ) (hm : m ≠ 0) :
    (a.divide ⟨m, 0⟩).magSq = a.magSq / (m * m) := by
  rw [Complex.divide_real a m hm, Complex.magSq_eq, Complex.magSq_eq]
  show a.re / m * (a.re / m) + a.im / m * (a.im / m) = _
  field_simp

theorem Complex.divide_zero_left (w : Complex) : Complex.divide 0 w = 0 := by
  unfold Complex.divide
  rw [Complex.zero_def, Complex.ext_iff]
  norm_num

theorem sum_range_getD (l : List Complex) (f : Complex → ℝ) :
    ∑ i ∈ Finset.range l.length, f (l.getD i 0) = (l.map f).sum := by
  induction l with
  | nil => simp
  | cons a t ih =>
      rw [List.length_cons, Finset.sum_range_succ', List.map_cons, List.sum_cons]
      simp only [List.getD_cons_succ, List.getD_cons_zero]
      rw [ih, add_comm]

/-- C9: `fromAmplitudes(values)` fails with `InvalidDimension` when the
length is not an exact power of two, fails with `ZeroState` (before any
state object is built) when the pre-normalization norm is below `1e-10`, and
otherwise returns a state whose total squared norm `Σ|amp_i|²` is exactly 1
(hence within the claimed tolerance `1e-9`).  The source clones every input
amplitude, which the value semantics of the embedding reflects. -/
theorem fromAmplitudes_spec (values : List Complex) :
    ((¬ ∃ n : ℕ, values.length = 2 ^ n) →
        QuantumState.fromAmplitudes values = .error .invalidDimension) ∧
    ((∃ n : ℕ, values.length = 2 ^ n) →
      Real.sqrt ((values.map Complex.magSq).sum) < 1 / 10 ^ 10 →
        QuantumState.fromAmplitudes values = .error .zeroState) ∧
    ((∃ n : ℕ, values.length = 2 ^ n) →
      ¬ Real.sqrt ((values.map Complex.magSq).sum) < 1 / 10 ^ 10 →
      ∃ s, QuantumState.fromAmplitudes values = .ok s ∧ s.normSq = 1) := by
  refine ⟨fun h => ?_, fun h hz => ?_, fun h hz => ?_⟩
  · unfold QuantumState.fromAmplitudes
    rw [if_neg h]
  · unfold QuantumState.fromAmplitudes
    rw [if_pos h]
    simp only
    rw [if_pos hz]
  · obtain ⟨n, hn⟩ := h
    set S : ℝ := (values.map Complex.magSq).sum with hS
    have hSnonneg : 0 ≤ S := by
      refine List.sum_nonneg fun x hx => ?_
      obtain ⟨a, _, rfl⟩ := List.mem_map.mp hx
      exact Complex.magSq_nonneg a
    have hsqrt_pos : 0 < Real.sqrt S := by
      have := not_lt.mp hz
      calc (0:ℝ) < 1 / 10 ^ 10 := by norm_num
        _ ≤ Real.sqrt S := this
    have hSpos : 0 < S := Real.sqrt_pos.mp hsqrt_pos
    have hdim : 2 ^ Nat.log2 values.length = values.length := by
      rw [hn, Nat.log2_eq_log_two, Nat.log_pow one_lt_two]
    have hnormSq :
        (QuantumState.mk (Nat.log2 values.length)
            (fun i => values.getD i 0)).normSq = S := by
      unfold QuantumState.normSq QuantumState.dimension
      simp only
      rw [hdim, sum_range_getD]
    refine ⟨⟨Nat.log2 values.length,
      fun i => (values.getD i 0).divide ⟨Real.sqrt S, 0⟩⟩, ?_, ?_⟩
    · unfold QuantumState.fromAmplitudes
      rw [if_pos ⟨n, hn⟩]
      simp only
      rw [if_neg hz]
      unfold QuantumState.normalize
      rw [hnormSq, if_neg hz]
    · unfold QuantumState.normSq QuantumState.dimension
      simp only
      have hm : Real.sqrt S ≠ 0 := ne_of_gt hsqrt_pos
      have hterm : ∀ i, ((values.getD i 0).divide ⟨Real.sqrt S, 0⟩).magSq
          = (values.getD i 0).magSq / S := by
        intro i
        rw [Complex.magSq_divide_real _ _ hm, Real.mul_self_sqrt hSnonneg]
      calc ∑ i ∈ Finset.range (2 ^ Nat.log2 values.length),
              ((values.getD i 0).divide ⟨Real.sqrt S, 0⟩).magSq
          = ∑ i ∈ Finset.range (2 ^ Nat.log2 values.length),
              (values.getD i 0).magSq / S := Finset.sum_congr rfl fun i _ => hterm i
        _ = (∑ i ∈ Finset.range (2 ^ Nat.log2 values.length),
              (values.getD i 0).magSq) / S := by rw [Finset.sum_div]
        _ = S / S := by rw [hdim, sum_range_getD]
        _ = 1 := div_self (ne_of_gt hSpos)

/-- Witness for the C9 theorem: the length-2 input `[1, 0]` is accepted and
normalized to squared norm 1. -/
theorem fromAmplitudes_spec_witness :
    ∃ s, QuantumState.fromAmplitudes [⟨1, 0⟩, ⟨0, 0⟩] = .ok s ∧ s.normSq = 1 := by
  refine (fromAmplitudes_spec [⟨1, 0⟩, ⟨0, 0⟩]).2.2 ⟨1, rfl⟩ ?_
  have hsum : (([⟨1, 0⟩, ⟨0, 0⟩] : List Complex).map Complex.magSq).sum = 1 := by
    simp [Complex.magSq_eq]
  rw [hsum, Real.sqrt_one]
  norm_num

/-- C7: when the retained probability mass of `collapseQubit(qubit, result)`
exceeds `1e-10`, every amplitude whose qubit bit disagrees with the result
is zero afterwards and the total squared norm is exactly 1; when the mass is
at most `1e-10` the circuit (in particular its amplitude vector) is left
completely unchanged.  The embedded function is total, matching the source's
lack of any `throw`. -/
theorem collapseQubit_spec (c : QuantumCircuit) (q r : ℕ) :
    (QuantumCircuit.retainedMass c q r > 1 / 10 ^ 10 →
      (∀ i, bitOf c.numQubits q i ≠ r →
        (c.collapseQubit q r).state.amplitudes i = 0) ∧
      (c.collapseQubit q r).state.normSq = 1) ∧
    (QuantumCircuit.retainedMass c q r ≤ 1 / 10 ^ 10 →
      c.collapseQubit q r = c) := by
  constructor
  · intro hm
    have hmpos : 0 < QuantumCircuit.retainedMass c q r :=
      lt_trans (by norm_num) hm
    have hsqrt_ne : Real.sqrt (QuantumCircuit.retainedMass c q r) ≠ 0 :=
      ne_of_gt (Real.sqrt_pos.mpr hmpos)
    have hcollapse : (c.collapseQubit q r).state =
        ⟨c.state.numQubits, fun i =>
          ((if i < c.state.dimension ∧ bitOf c.numQubits q i = r then
              c.state.amplitudes i else 0).divide
            ⟨Real.sqrt (QuantumCircuit.retainedMass c q r), 0⟩)⟩ := by
      unfold QuantumCircuit.collapseQubit
      rw [if_pos hm]
    constructor
    · intro i hi
      rw [hcollapse]
      simp only
      rw [if_neg (fun hand => hi hand.2), Complex.divide_zero_left]
    · rw [hcollapse]
      unfold QuantumState.normSq QuantumState.dimension
      simp only
      have hterm : ∀ i ∈ Finset.range (2 ^ c.state.numQubits),
          ((if i < 2 ^ c.state.numQubits ∧ bitOf c.numQubits q i = r then
              c.state.amplitudes i else 0).divide
            ⟨Real.sqrt (QuantumCircuit.retainedMass c q r), 0⟩).magSq
          = (if bitOf c.numQubits q i = r then (c.state.amplitudes i).magSq
              else 0) / QuantumCircuit.retainedMass c q r := by
        intro i hi
        have hid : i < 2 ^ c.state.numQubits := Finset.mem_range.mp hi
        rw [Complex.magSq_divide_real _ _ hsqrt_ne,
          Real.mul_self_sqrt (le_of_lt hmpos)]
        by_cases hb : bitOf c.numQubits q i = r
        · rw [if_pos ⟨hid, hb⟩, if_pos hb]
        · rw [if_neg (fun hand => hb hand.2), if_neg hb, Complex.magSq_zero]
      rw [Finset.sum_congr rfl hterm, ← Finset.sum_div]
      have hmass : (∑ i ∈ Finset.range (2 ^ c.state.numQubits),
          if bitOf c.numQubits q i = r then (c.state.amplitudes i).magSq
          else 0) = QuantumCircuit.retainedMass c q r := by
        unfold QuantumCircuit.retainedMass QuantumState.dimension
        rfl
      rw [hmass]
      exact div_self (ne_of_gt hmpos)
  · intro hm
    unfold QuantumCircuit.collapseQubit
    rw [if_neg (not_lt.mpr hm)]

/-- Witness for the C7 theorem: collapsing qubit 0 of a fresh 1-qubit
circuit (state `|0⟩`, retained mass 1) onto result 0 zeroes the disagreeing
amplitude and leaves squared norm 1. -/
theorem collapseQubit_spec_witness :
    (∀ i, bitOf (QuantumCircuit.init 1).numQubits 0 i ≠ 0 →
      ((QuantumCircuit.init 1).collapseQubit 0 0).state.amplitudes i = 0) ∧
    ((QuantumCircuit.init 1).collapseQubit 0 0).state.normSq = 1 := by
  refine (collapseQubit_spec (QuantumCircuit.init 1) 0 0).1 ?_
  have : QuantumCircuit.retainedMass (QuantumCircuit.init 1) 0 0 = 1 := by
    unfold QuantumCircuit.retainedMass QuantumCircuit.init QuantumState.init
      QuantumState.dimension
    rw [show (2:ℕ) ^ 1 = 2 by norm_num]
    rw [Finset.sum_range_succ, Finset.sum_range_succ, Finset.sum_range_zero]
    norm_num [bitOf, Complex.magSq_eq, Complex.zero_def]
  rw [this]
  norm_num

theorem Except.bind_ok {α β : Type} (a : α) (f : α → Except QError β) :
    (Except.ok a : Except QError α) >>= f = f a := rfl

theorem executeSingleShot_no_ops (nq : ℕ) (st : QuantumState)
    (hist : List ShotResult) (rands : List ℝ) :
    QuantumCircuit.executeSingleShot ⟨nq, [], [], st, hist⟩ rands =
      .ok (⟨nq, [], [], st, hist ++ [⟨st, st, [], []⟩]⟩, ⟨st, st, [], []⟩,
        rands) := rfl

theorem runLoop_no_ops (shots : ℕ) :
    ∀ (nq : ℕ) (st : QuantumState) (hist results : List ShotResult)
      (rands : List ℝ),
    ∃ hist' results',
      QuantumCircuit.runLoop ⟨nq, [], [], st, hist⟩ shots rands results =
        .ok (⟨nq, [], [], st, hist'⟩, results') := by
  induction shots with
  | zero => exact fun nq st hist results rands => ⟨hist, results, rfl⟩
  | succ n ih =>
      intro nq st hist results rands
      obtain ⟨hist', results', h⟩ :=
        ih nq st [⟨st, st, [], []⟩] (results ++ [⟨st, st, [], []⟩]) rands
      refine ⟨hist', results', ?_⟩
      rw [show QuantumCircuit.runLoop ⟨nq, [], [], st, hist⟩ (n + 1) rands results
          = QuantumCircuit.runLoop ⟨nq, [], [], st, [⟨st, st, [], []⟩]⟩ n rands
              (results ++ [⟨st, st, [], []⟩]) from rfl]
      exact h

/-- C8: `reset()` (the per-shot reset inside `run`) sets every recorded
measurement result back to `null` and clears the execution history while
leaving the quantum state untouched; consequently a circuit with no gates
and no measurements keeps its externally supplied state verbatim across
`run(shots)` for any shot count — in particular a state installed via
`fromAmplitudes` is never reset to `|0…0⟩`, and the circuit left behind by
`run` still has no gates and no measurements, so repeated runs preserve the
state as well. -/
theorem reset_run_frame_effect :
    (∀ c : QuantumCircuit,
      (c.reset).state = c.state ∧
      (c.reset).measurements =
        (c.measurements.map fun m => {m with result := none}) ∧
      (c.reset).executionHistory = []) ∧
    (∀ (nq : ℕ) (st : QuantumState) (hist : List ShotResult) (shots : ℕ)
        (rands : List ℝ),
      ∃ hist' results,
        QuantumCircuit.run ⟨nq, [], [], st, hist⟩ shots rands =
          .ok (⟨nq, [], [], st, hist'⟩, results)) := by
  constructor
  · exact fun c => ⟨rfl, rfl, rfl⟩
  · intro nq st hist shots rands
    obtain ⟨hist', results', h⟩ := runLoop_no_ops shots nq st hist [] rands
    exact ⟨hist', results', h⟩

theorem transitionAllowed_iff (n : ℕ) (ts : List ℕ) (i j : ℕ) :
    QuantumState.transitionAllowed n ts i j ↔
      ¬ ∃ q, q < n ∧ q ∉ ts ∧ bitOf n q i ≠ bitOf n q j := by
  unfold QuantumState.transitionAllowed
  push_neg
  constructor
  · intro h q hq hqts
    exact h q (List.mem_filter.mpr ⟨List.mem_range.mpr hq, by simpa using hqts⟩)
  · intro h q hq
    obtain ⟨hqr, hqts⟩ := List.mem_filter.mp hq
    exact h q (List.mem_range.mp hqr) (by simpa using hqts)

/-- C2: for an `n`-qubit state and a gate matrix of size `2^k`, `applyGate`
requires `targetQubits.length = k` (failing with `GateArityMismatch`
otherwise) and then replaces the amplitude vector by the matrix–vector
product of the full `2^n × 2^n` operator whose entry `(i, j)` is `0`
whenever some qubit outside `targetQubits` has different bit values in `i`
and `j`, and `gateMatrix[subI][subJ]` otherwise, where the sub-indices
shift in the target qubits' bits in order, most-significant target
first. -/
theorem applyGate_spec (s : QuantumState) (g : Matrix) (ts : List ℕ) (k : ℕ)
    (hg : g.rows = 2 ^ k) :
    (ts.length = k →
      ∃ s', s.applyGate g ts = .ok s' ∧ s'.numQubits = s.numQubits ∧
        ∀ i < s.dimension, s'.amplitudes i =
          ∑ j ∈ Finset.range s.dimension,
            ((if ∃ q, q < s.numQubits ∧ q ∉ ts ∧
                  bitOf s.numQubits q i ≠ bitOf s.numQubits q j then 0
              else g.data (QuantumState.subIndex s.numQubits ts i)
                (QuantumState.subIndex s.numQubits ts j)).multiply
              (s.amplitudes j))) ∧
    (ts.length ≠ k → s.applyGate g ts = .error .gateArityMismatch) := by
  have hlog : Nat.log2 g.rows = k := by
    rw [hg, Nat.log2_eq_log_two, Nat.log_pow one_lt_two]
  constructor
  · intro hlen
    have hfull : s.createFullGateMatrix g ts =
        .ok ⟨s.dimension, s.dimension, fun i j =>
          if QuantumState.transitionAllowed s.numQubits ts i j then
            g.data (QuantumState.subIndex s.numQubits ts i)
              (QuantumState.subIndex s.numQubits ts j)
          else 0⟩ := by
      unfold QuantumState.createFullGateMatrix
      rw [if_pos ⟨k, hg⟩, if_neg (by rw [hlog, hlen]; exact fun h => h rfl)]
    refine ⟨⟨s.numQubits, fun i =>
      if i < s.dimension then
        ∑ j ∈ Finset.range s.dimension,
          ((if QuantumState.transitionAllowed s.numQubits ts i j then
              g.data (QuantumState.subIndex s.numQubits ts i)
                (QuantumState.subIndex s.numQubits ts j)
            else 0).multiply (s.amplitudes j))
      else 0⟩, ?_, rfl, ?_⟩
    · unfold QuantumState.applyGate
      rw [hfull, Except.bind_ok]
    · intro i hi
      simp only [if_pos hi]
      refine Finset.sum_congr rfl fun j _ => ?_
      by_cases hbad : ∃ q, q < s.numQubits ∧ q ∉ ts ∧
          bitOf s.numQubits q i ≠ bitOf s.numQubits q j
      · rw [if_pos hbad, if_neg (fun hall =>
          ((transitionAllowed_iff s.numQubits ts i j).mp hall) hbad)]
      · rw [if_neg hbad, if_pos ((transitionAllowed_iff s.numQubits ts i j).mpr hbad)]
  · intro hlen
    unfold QuantumState.applyGate QuantumState.createFullGateMatrix
    rw [if_pos ⟨k, hg⟩, if_pos (by rw [hlog]; exact fun h => hlen h)]
    rfl

/-- Witness for the C2 theorem: applying the 2 × 2 Pauli-X matrix to qubit 0
of a 1-qubit register succeeds and every in-range amplitude is the stated
operator–vector product. -/
theorem applyGate_spec_witness :
    ∃ s', (QuantumState.init 1).applyGate QuantumGates.PauliX [0] = .ok s' ∧
      s'.numQubits = (QuantumState.init 1).numQubits ∧
      ∀ i < (QuantumState.init 1).dimension, s'.amplitudes i =
        ∑ j ∈ Finset.range (QuantumState.init 1).dimension,
          ((if ∃ q, q < (QuantumState.init 1).numQubits ∧ q ∉ [0] ∧
                bitOf (QuantumState.init 1).numQubits q i ≠
                  bitOf (QuantumState.init 1).numQubits q j then 0
            else QuantumGates.PauliX.data
              (QuantumState.subIndex (QuantumState.init 1).numQubits [0] i)
              (QuantumState.subIndex (QuantumState.init 1).numQubits [0] j)).multiply
            ((QuantumState.init 1).amplitudes j)) :=
  (applyGate_spec (QuantumState.init 1) QuantumGates.PauliX [0] 1 rfl).1 rfl

theorem classicalTarget_lt (n o i₀ result : ℕ) (ho : o < n) (hi : i₀ < 2 ^ n)
    (hres : result < 2) :
    QuantumCircuit.classicalTarget n o i₀ result < 2 ^ n := by
  unfold QuantumCircuit.classicalTarget
  refine Nat.or_lt_two_pow (lt_of_le_of_lt Nat.and_le_left hi) ?_
  rw [Nat.shiftLeft_eq]
  calc result * 2 ^ (n - 1 - o) < 2 * 2 ^ (n - 1 - o) :=
        mul_lt_mul_of_pos_right hres (pow_pos (by norm_num) _)
    _ = 2 ^ (n - 1 - o + 1) := by ring
    _ ≤ 2 ^ n := Nat.pow_le_pow_right (by norm_num) (by omega)

theorem bitOf_lt_two (n q i : ℕ) : bitOf n q i < 2 := Nat.mod_lt _ (by norm_num)

/-- C10: whenever the classical `AND` or `OR` pseudo-gate finds a dominant
basis index — the first index whose amplitude magnitude exceeds `0.9` — the
resulting amplitude vector is exactly the basis state with amplitude
`Complex(1, 0)` at the computed target index and exactly `0` everywhere
else; the dominant amplitude's phase, its sub-unit magnitude and any
residual amplitude on other indices are discarded, so the output has total
squared norm exactly 1 even when the input was only approximately a basis
state. -/
theorem applyClassicalGate_exact_basis (c : QuantumCircuit)
    (inputQubits : List ℕ) (outputQubit : ℕ) (i₀ : ℕ)
    (ho : outputQubit < c.state.numQubits)
    (hfind : (List.range (2 ^ c.state.numQubits)).find?
        (fun i => (9:ℝ)/10 < (c.state.amplitudes i).magnitude) = some i₀) :
    ((c.applyClassicalGate "AND" inputQubits outputQubit).state.amplitudes =
      fun i => if i = QuantumCircuit.classicalTarget c.state.numQubits
          outputQubit i₀
          (bitOf c.state.numQubits (inputQubits.getD 0 0) i₀ &&&
            bitOf c.state.numQubits (inputQubits.getD 1 0) i₀)
        then ⟨1, 0⟩ else 0) ∧
    (c.applyClassicalGate "AND" inputQubits outputQubit).state.normSq = 1 ∧
    ((c.applyClassicalGate "OR" inputQubits outputQubit).state.amplitudes =
      fun i => if i = QuantumCircuit.classicalTarget c.state.numQubits
          outputQubit i₀
          (bitOf c.state.numQubits (inputQubits.getD 0 0) i₀ |||
            bitOf c.state.numQubits (inputQubits.getD 1 0) i₀)
        then ⟨1, 0⟩ else 0) ∧
    (c.applyClassicalGate "OR" inputQubits outputQubit).state.normSq = 1 := by
  have hi₀ : i₀ < 2 ^ c.state.numQubits := by
    have := List.find?_some hfind
    have hmem := List.mem_range.mp (List.mem_of_find?_eq_some hfind)
    exact hmem
  have handlt : (bitOf c.state.numQubits (inputQubits.getD 0 0) i₀ &&&
      bitOf c.state.numQubits (inputQubits.getD 1 0) i₀) < 2 :=
    lt_of_le_of_lt Nat.and_le_left (bitOf_lt_two _ _ _)
  have horlt : (bitOf c.state.numQubits (inputQubits.getD 0 0) i₀ |||
      bitOf c.state.numQubits (inputQubits.getD 1 0) i₀) < 2 := by
    have h1 : bitOf c.state.numQubits (inputQubits.getD 0 0) i₀ < 2 ^ 1 := by
      simpa using bitOf_lt_two c.state.numQubits (inputQubits.getD 0 0) i₀
    have h2 : bitOf c.state.numQubits (inputQubits.getD 1 0) i₀ < 2 ^ 1 := by
      simpa using bitOf_lt_two c.state.numQubits (inputQubits.getD 1 0) i₀
    simpa using Nat.or_lt_two_pow h1 h2
  have hAND : (c.applyClassicalGate "AND" inputQubits outputQubit).state =
      ⟨c.state.numQubits, fun i =>
        if i = QuantumCircuit.classicalTarget c.state.numQubits outputQubit i₀
            (bitOf c.state.numQubits (inputQubits.getD 0 0) i₀ &&&
              bitOf c.state.numQubits (inputQubits.getD 1 0) i₀)
          then ⟨1, 0⟩ else 0⟩ := by
    unfold QuantumCircuit.applyClassicalGate
    rw [if_neg (by decide), if_pos rfl, hfind]
  have hOR : (c.applyClassicalGate "OR" inputQubits outputQubit).state =
      ⟨c.state.numQubits, fun i =>
        if i = QuantumCircuit.classicalTarget c.state.numQubits outputQubit i₀
            (bitOf c.state.numQubits (inputQubits.getD 0 0) i₀ |||
              bitOf c.state.numQubits (inputQubits.getD 1 0) i₀)
          then ⟨1, 0⟩ else 0⟩ := by
    unfold QuantumCircuit.applyClassicalGate
    rw [if_neg (by decide), if_neg (by decide), if_pos rfl, hfind]
  have hnorm : ∀ t, t < 2 ^ c.state.numQubits →
      (QuantumState.mk c.state.numQubits
        (fun i => if i = t then ⟨1, 0⟩ else 0)).normSq = 1 := by
    intro t ht
    unfold QuantumState.normSq QuantumState.dimension
    simp only
    have hpt : ∀ i, (if i = t then (⟨1, 0⟩ : Complex) else 0).magSq
        = if i = t then (1:ℝ) else 0 := by
      intro i
      by_cases h : i = t
      · rw [if_pos h, if_pos h, Complex.magSq_eq]
        norm_num
      · rw [if_neg h, if_neg h, Complex.magSq_zero]
    calc ∑ i ∈ Finset.range (2 ^ c.state.numQubits),
            (if i = t then (⟨1, 0⟩ : Complex) else 0).magSq
        = ∑ i ∈ Finset.range (2 ^ c.state.numQubits),
            (if i = t then (1:ℝ) else 0) :=
          Finset.sum_congr rfl fun i _ => hpt i
      _ = 1 := by
          rw [Finset.sum_ite_eq' (Finset.range (2 ^ c.state.numQubits)) t
            fun _ => (1:ℝ), if_pos (Finset.mem_range.mpr ht)]
  refine ⟨by rw [hAND], ?_, by rw [hOR], ?_⟩
  · rw [hAND]
    exact hnorm _ (classicalTarget_lt _ _ _ _ ho hi₀ handlt)
  · rw [hOR]
    exact hnorm _ (classicalTarget_lt _ _ _ _ ho hi₀ horlt)

/-- Witness for the C10 theorem: a 2-qubit register that is approximately
`|11⟩` (amplitude `0.98 + 0.1i` at index 3) is replaced by an exactly
normalized basis state by both classical gates. -/
theorem applyClassicalGate_exact_basis_witness :
    ((QuantumCircuit.mk 2 [] [] ⟨2, fun i => if i = 3 then ⟨49/50, 1/10⟩ else 0⟩
        []).applyClassicalGate "AND" [0, 1] 1).state.normSq = 1 ∧
    ((QuantumCircuit.mk 2 [] [] ⟨2, fun i => if i = 3 then ⟨49/50, 1/10⟩ else 0⟩
        []).applyClassicalGate "OR" [0, 1] 1).state.normSq = 1 := by
  have hzero : ¬ ((9:ℝ)/10 < (0 : Complex).magnitude) := by
    unfold Complex.magnitude
    rw [Complex.zero_def]
    rw [show (0:ℝ) * 0 + 0 * 0 = 0 by norm_num, Real.sqrt_zero]
    norm_num
  have hmag3 : (9:ℝ)/10 < (Complex.mk (49/50) (1/10)).magnitude := by
    unfold Complex.magnitude
    rw [show (49/50 : ℝ) * (49/50) + 1/10 * (1/10) = 2426/2500 by norm_num]
    rw [show (9:ℝ)/10 = Real.sqrt ((9/10)^2) from (Real.sqrt_sq (by norm_num)).symm]
    exact Real.sqrt_lt_sqrt (by positivity) (by norm_num)
  have hfind : (List.range
      (2 ^ (QuantumCircuit.mk 2 [] []
        ⟨2, fun i => if i = 3 then ⟨49/50, 1/10⟩ else 0⟩ []).state.numQubits)).find?
        (fun i => decide ((9:ℝ)/10 <
          ((QuantumCircuit.mk 2 [] []
            ⟨2, fun i => if i = 3 then ⟨49/50, 1/10⟩ else 0⟩
            []).state.amplitudes i).magnitude)) = some 3 := by
    have e0 : ¬ ((9:ℝ)/10 <
        ((QuantumCircuit.mk 2 [] []
          ⟨2, fun i => if i = 3 then ⟨49/50, 1/10⟩ else 0⟩
          []).state.amplitudes 0).magnitude) := hzero
    have e1 : ¬ ((9:ℝ)/10 <
        ((QuantumCircuit.mk 2 [] []
          ⟨2, fun i => if i = 3 then ⟨49/50, 1/10⟩ else 0⟩
          []).state.amplitudes 1).magnitude) := hzero
    have e2 : ¬ ((9:ℝ)/10 <
        ((QuantumCircuit.mk 2 [] []
          ⟨2, fun i => if i = 3 then ⟨49/50, 1/10⟩ else 0⟩
          []).state.amplitudes 2).magnitude) := hzero
    have e3 : (9:ℝ)/10 <
        ((QuantumCircuit.mk 2 [] []
          ⟨2, fun i => if i = 3 then ⟨49/50, 1/10⟩ else 0⟩
          []).state.amplitudes 3).magnitude := hmag3
    rw [show List.range (2 ^ (QuantumCircuit.mk 2 [] []
        ⟨2, fun i => if i = 3 then (⟨49/50, 1/10⟩ : Complex) else 0⟩
        []).state.numQubits) = [0, 1, 2, 3] from rfl]
    rw [List.find?_cons_of_neg _ (by simpa using e0)]
    rw [List.find?_cons_of_neg _ (by simpa using e1)]
    rw [List.find?_cons_of_neg _ (by simpa using e2)]
    rw [List.find?_cons_of_pos _ (by simpa using e3)]
  have h := applyClassicalGate_exact_basis
    (QuantumCircuit.mk 2 [] [] ⟨2, fun i => if i = 3 then ⟨49/50, 1/10⟩ else 0⟩ [])
    [0, 1] 1 3 (by norm_num) hfind
  exact ⟨h.2.1, h.2.2.2⟩

theorem getGateInfo_none_iff (name : String) :
    QuantumGates.getGateInfo name = none ↔
      jsToUpper name ∉ canonicalGateNames := by
  unfold QuantumGates.getGateInfo QuantumGates.gateInfoTable canonicalGateNames
  simp [List.lookup_eq_none_iff]

theorem getGate_not_unknown (name : String)
    (hmem : jsToUpper name ∈ canonicalGateNames) (ps : List ℝ) :
    QuantumGates.getGate name ps ≠ .error .unknownGate := by
  unfold canonicalGateNames at hmem
  simp only [List.mem_cons, List.not_mem_nil, or_false] at hmem
  rcases hmem with h|h|h|h|h|h|h|h|h|h|h|h|h|h <;>
    · simp only [QuantumGates.getGate, h]
      cases ps <;> simp

/-- C5 counterexample: `U` is accepted by the lookup-by-name function
`getGate` (with its three angles), but the metadata table `getGateInfo` has
no entry for it, so `addGate('U', …)` fails with `UnknownGate` — refuting
the claim that every name the lookup function accepts is covered by the
metadata table and survives `addGate`'s `UnknownGate` check. -/
theorem addGate_U_unknownGate :
    (∃ M, QuantumGates.getGate "U" [0, 0, 0] = .ok M) ∧
    QuantumGates.getGateInfo "U" = none ∧
    (QuantumCircuit.init 1).addGate "U" [0] ⟨none, [0, 0, 0]⟩ =
      .error .unknownGate :=
  ⟨⟨QuantumGates.U 0 0 0, rfl⟩, rfl, rfl⟩

/-- C5 (amended): the metadata table covers exactly the fourteen canonical
names `H`, `X`, `Y`, `Z`, `S`, `T`, `RX`, `RY`, `RZ`, `CNOT`, `CZ`, `SWAP`,
`TOFFOLI`, `FREDKIN` (case-insensitively); `addGate` fails with
`UnknownGate` exactly when the uppercased name is not among these.  Names
accepted by `getGate` but absent from the table — `U`, `CRZ`, `RK` and all
aliases such as `HADAMARD` or `CCNOT` — therefore make `addGate` fail with
`UnknownGate`; for the fourteen covered names `addGate` never fails with
`UnknownGate` (later checks may fail with other errors). -/
theorem addGate_unknownGate_iff (name : String) :
    (QuantumGates.getGateInfo name = none ↔
      jsToUpper name ∉ canonicalGateNames) ∧
    (∀ (c : QuantumCircuit) (ts : List ℕ) (ps : GateParams),
      QuantumGates.getGateInfo name = none →
        c.addGate name ts ps = .error .unknownGate) ∧
    (∀ (c : QuantumCircuit) (ts : List ℕ) (ps : GateParams),
      QuantumGates.getGateInfo name ≠ none →
        c.addGate name ts ps ≠ .error .unknownGate) := by
  refine ⟨getGateInfo_none_iff name, ?_, ?_⟩
  · intro c ts ps h
    simp only [QuantumCircuit.addGate, h]
  · intro c ts ps h
    have hmem : jsToUpper name ∈ canonicalGateNames := by
      by_contra hmem
      exact h ((getGateInfo_none_iff name).mpr hmem)
    obtain ⟨info, hinfo⟩ := Option.ne_none_iff_exists'.mp h
    simp only [QuantumCircuit.addGate, hinfo]
    by_cases h1 : ts.length ≠ info.qubits
    · rw [if_pos h1]
      simp
    · rw [if_neg h1]
      by_cases h2 : ¬ ∀ q ∈ ts, q < c.numQubits
      · rw [if_pos h2]
        simp
      · rw [if_neg h2]
        cases hgg : QuantumGates.getGate name ps.values with
        | error e =>
            have hne := getGate_not_unknown name hmem ps.values
            rw [hgg] at hne
            simp only [Except.bind_error]
            intro heq
            injection heq with heq'
            exact hne (by rw [heq'])
        | ok m =>
            simp only [Except.bind_ok]
            cases ps.position <;> simp

/-- Witness for the C5 amended theorem: the alias `CCNOT` (accepted by
`getGate`) makes `addGate` fail with `UnknownGate`, while the canonical
name `H` never does. -/
theorem addGate_unknownGate_iff_witness :
    (QuantumCircuit.init 1).addGate "CCNOT" [0] ⟨none, []⟩ =
      .error .unknownGate ∧
    (QuantumCircuit.init 1).addGate "H" [0] ⟨none, []⟩ ≠
      .error .unknownGate :=
  ⟨(addGate_unknownGate_iff "CCNOT").2.1 (QuantumCircuit.init 1) [0]
      ⟨none, []⟩ rfl,
   (addGate_unknownGate_iff "H").2.2 (QuantumCircuit.init 1) [0]
      ⟨none, []⟩ (by decide)⟩

theorem effectivePosition_quantum_some (name : String) (ts : List ℕ)
    (v : ℝ) (args : List ℝ) (M : Matrix) (i : ℕ) (hv : v ≠ 0) :
    (GateOp.quantum name ts ⟨some v, args⟩ M).effectivePosition i = v := by
  simp only [GateOp.effectivePosition]
  rw [if_pos hv]

/-- C6 counterexample: one existing `X` gate on qubit 0 with recorded
position 5, and a new `X` gate on qubit 0 requested at position 3.  No
existing gate shares a qubit and has smaller effective position, so the
scan's `insertIndex` keeps its initial value `gates.length` and the new
gate is appended AFTER the existing gate — even though the claim requires
it to be placed before the first existing gate whose effective position
(5) is `≥` the requested position (3). -/
theorem addGate_position_counterexample :
    (QuantumCircuit.mk 1
        [.quantum "X" [0] ⟨some 5, []⟩ QuantumGates.PauliX]
        [] (QuantumState.init 1) []).addGate "X" [0] ⟨some 3, []⟩ =
      .ok (QuantumCircuit.mk 1
        [.quantum "X" [0] ⟨some 5, []⟩ QuantumGates.PauliX,
         .quantum "X" [0] ⟨some 3, []⟩ QuantumGates.PauliX]
        [] (QuantumState.init 1) []) ∧
    (3:ℝ) ≤ (GateOp.quantum "X" [0] ⟨some 5, []⟩
        QuantumGates.PauliX).effectivePosition 0 := by
  constructor
  · have hep : (GateOp.quantum "X" [0] ⟨some 5, []⟩
        QuantumGates.PauliX).effectivePosition 0 = 5 :=
      effectivePosition_quantum_some _ _ _ _ _ _ (by norm_num)
    have hscan : QuantumCircuit.insertScan [0] 3
        [.quantum "X" [0] ⟨some 5, []⟩ QuantumGates.PauliX] 0 1 = 1 := by
      simp only [QuantumCircuit.insertScan, hep]
      rw [if_neg (fun h => absurd h.2 (by norm_num)),
        if_pos (by norm_num : (5:ℝ) ≥ 3)]
    have hfii : QuantumCircuit.findInsertIndex
        [.quantum "X" [0] ⟨some 5, []⟩ QuantumGates.PauliX] [0] 3 = 1 := by
      unfold QuantumCircuit.findInsertIndex
      rw [show ([GateOp.quantum "X" [0] ⟨some 5, []⟩
        QuantumGates.PauliX] : List GateOp).length = 1 from rfl]
      exact hscan
    calc (QuantumCircuit.mk 1
            [.quantum "X" [0] ⟨some 5, []⟩ QuantumGates.PauliX]
            [] (QuantumState.init 1) []).addGate "X" [0] ⟨some 3, []⟩
        = .ok (QuantumCircuit.mk 1
            (([GateOp.quantum "X" [0] ⟨some 5, []⟩ QuantumGates.PauliX]).insertIdx
              (QuantumCircuit.findInsertIndex
                [.quantum "X" [0] ⟨some 5, []⟩ QuantumGates.PauliX] [0] 3)
              (.quantum "X" [0] ⟨some 3, []⟩ QuantumGates.PauliX))
            [] (QuantumState.init 1) []) := rfl
      _ = .ok (QuantumCircuit.mk 1
            [.quantum "X" [0] ⟨some 5, []⟩ QuantumGates.PauliX,
             .quantum "X" [0] ⟨some 3, []⟩ QuantumGates.PauliX]
            [] (QuantumState.init 1) []) := by rw [hfii]; rfl
  · rw [effectivePosition_quantum_some _ _ _ _ _ _ (by norm_num)]
    norm_num

theorem insertScan_characterization (ts : List ℕ) (pos : ℝ) :
    ∀ (l : List GateOp) (i acc : ℕ),
    ∃ b, b ≤ l.length ∧
      (∀ t, t < b → (l.getD t default).effectivePosition (i + t) < pos) ∧
      (b < l.length → pos ≤ (l.getD b default).effectivePosition (i + b)) ∧
      (((∀ t, t < b →
          ¬ (((l.getD t default).qubitsList.any fun q => ts.contains q) = true ∧
             (l.getD t default).effectivePosition (i + t) < pos)) ∧
        QuantumCircuit.insertScan ts pos l i acc = acc) ∨
       (∃ t, t < b ∧
          (((l.getD t default).qubitsList.any fun q => ts.contains q) = true ∧
           (l.getD t default).effectivePosition (i + t) < pos) ∧
          QuantumCircuit.insertScan ts pos l i acc = (i + t) + 1 ∧
          (∀ u, t < u → u < b →
            ¬ (((l.getD u default).qubitsList.any fun q => ts.contains q) = true ∧
               (l.getD u default).effectivePosition (i + u) < pos)))) := by
  intro l
  induction l with
  | nil =>
      intro i acc
      exact ⟨0, Nat.le_refl 0, fun t ht => absurd ht (Nat.not_lt_zero t),
        fun h => absurd h (lt_irrefl 0),
        Or.inl ⟨fun t ht => absurd ht (Nat.not_lt_zero t), rfl⟩⟩
  | cons g rest ih =>
      intro i acc
      by_cases hstop : pos ≤ g.effectivePosition i
      · refine ⟨0, Nat.zero_le _, fun t ht => absurd ht (Nat.not_lt_zero t),
          fun _ => hstop,
          Or.inl ⟨fun t ht => absurd ht (Nat.not_lt_zero t), ?_⟩⟩
        simp only [QuantumCircuit.insertScan]
        rw [if_neg (fun h => absurd h.2 (not_lt.mpr hstop)), if_pos hstop]
      · have hlt : g.effectivePosition i < pos := not_le.mp hstop
        by_cases hov : (g.qubitsList.any fun q => ts.contains q) = true
        · obtain ⟨b', hb'len, hb'lt, hb'stop, hchar⟩ := ih (i + 1) (i + 1)
          have heq : QuantumCircuit.insertScan ts pos (g :: rest) i acc =
              QuantumCircuit.insertScan ts pos rest (i + 1) (i + 1) := by
            simp only [QuantumCircuit.insertScan]
            rw [if_pos ⟨hov, hlt⟩]
          refine ⟨b' + 1, by simpa using Nat.succ_le_succ hb'len, ?_, ?_, ?_⟩
          · intro t ht
            cases t with
            | zero => exact hlt
            | succ t' =>
                have h := hb'lt t' (Nat.lt_of_succ_lt_succ ht)
                have hidx : i + (t' + 1) = (i + 1) + t' := by omega
                simpa [hidx] using h
          · intro hb
            have h := hb'stop (by simpa using Nat.lt_of_succ_lt_succ hb)
            have hidx : i + (b' + 1) = (i + 1) + b' := by omega
            simpa [hidx] using h
          · rcases hchar with ⟨hnone, hval⟩ | ⟨t', ht'b, hQ, hval, hlast⟩
            · right
              refine ⟨0, Nat.succ_pos b', ⟨hov, hlt⟩, by rw [heq, hval], ?_⟩
              intro u hu0 hub
              cases u with
              | zero => omega
              | succ u' =>
                  have h := hnone u' (Nat.lt_of_succ_lt_succ hub)
                  have hidx : i + (u' + 1) = (i + 1) + u' := by omega
                  simpa [hidx] using h
            · right
              have hidx : i + (t' + 1) = (i + 1) + t' := by omega
              refine ⟨t' + 1, Nat.succ_lt_succ ht'b,
                ⟨by simpa using hQ.1, by simpa [hidx] using hQ.2⟩, ?_, ?_⟩
              · rw [heq, hval]
                omega
              · intro u hu hub
                cases u with
                | zero => omega
                | succ u' =>
                    have h := hlast u' (Nat.lt_of_succ_lt_succ hu)
                      (Nat.lt_of_succ_lt_succ hub)
                    have hidxu : i + (u' + 1) = (i + 1) + u' := by omega
                    simpa [hidxu] using h
        · obtain ⟨b', hb'len, hb'lt, hb'stop, hchar⟩ := ih (i + 1) acc
          have heq : QuantumCircuit.insertScan ts pos (g :: rest) i acc =
              QuantumCircuit.insertScan ts pos rest (i + 1) acc := by
            simp only [QuantumCircuit.insertScan]
            rw [if_neg (fun h => hov h.1), if_neg hstop]
          refine ⟨b' + 1, by simpa using Nat.succ_le_succ hb'len, ?_, ?_, ?_⟩
          · intro t ht
            cases t with
            | zero => exact hlt
            | succ t' =>
                have h := hb'lt t' (Nat.lt_of_succ_lt_succ ht)
                have hidx : i + (t' + 1) = (i + 1) + t' := by omega
                simpa [hidx] using h
          · intro hb
            have h := hb'stop (by simpa using Nat.lt_of_succ_lt_succ hb)
            have hidx : i + (b' + 1) = (i + 1) + b' := by omega
            simpa [hidx] using h
          · rcases hchar with ⟨hnone, hval⟩ | ⟨t', ht'b, hQ, hval, hlast⟩
            · left
              refine ⟨?_, by rw [heq, hval]⟩
              intro t ht
              cases t with
              | zero => exact fun hcon => hov hcon.1
              | succ t' =>
                  have h := hnone t' (Nat.lt_of_succ_lt_succ ht)
                  have hidx : i + (t' + 1) = (i + 1) + t' := by omega
                  simpa [hidx] using h
            · right
              have hidx : i + (t' + 1) = (i + 1) + t' := by omega
              refine ⟨t' + 1, Nat.succ_lt_succ ht'b,
                ⟨by simpa using hQ.1, by simpa [hidx] using hQ.2⟩, ?_, ?_⟩
              · rw [heq, hval]
                omega
              · intro u hu hub
                cases u with
                | zero => omega
                | succ u' =>
                    have h := hlast u' (Nat.lt_of_succ_lt_succ hu)
                      (Nat.lt_of_succ_lt_succ hub)
                    have hidxu : i + (u' + 1) = (i + 1) + u' := by omega
                    simpa [hidxu] using h

/-- C6 (amended): without `params.position` the gate is appended at the
end.  With `params.position = pos`, the new gate is inserted at the index
computed by the scan, which behaves as follows: the scan stops at the first
existing gate whose effective position is `≥ pos` (index `b` below; every
earlier gate has effective position `< pos`); the new gate is inserted
immediately after the last gate before the stopping point that shares a
target qubit and has effective position `< pos`; if there is no such gate,
the new gate is appended at the end of the whole list — even when the scan
stopped at a gate with effective position `≥ pos`.  The effective position
of an existing gate is its recorded `params.position` when that is present
and nonzero, and its own list index otherwise (a recorded position of `0`
is falsy in the source's `||` chain and so falls back to the index). -/
theorem addGate_insertion_semantics (c : QuantumCircuit) (gateName : String)
    (ts : List ℕ) (ps : GateParams) (info : GateInfo) (M : Matrix)
    (hinfo : QuantumGates.getGateInfo gateName = some info)
    (hlen : ts.length = info.qubits)
    (hrange : ∀ q ∈ ts, q < c.numQubits)
    (hgate : QuantumGates.getGate gateName ps.values = .ok M) :
    (ps.position = none →
      c.addGate gateName ts ps =
        .ok {c with gates := c.gates ++ [.quantum gateName ts ps M]}) ∧
    (∀ pos : ℝ, ps.position = some pos →
      c.addGate gateName ts ps =
        .ok {c with gates := (c.gates.insertIdx
          (QuantumCircuit.findInsertIndex c.gates ts pos)
          (.quantum gateName ts ps M))} ∧
      ∃ b, b ≤ c.gates.length ∧
        (∀ t, t < b → (c.gates.getD t default).effectivePosition t < pos) ∧
        (b < c.gates.length →
          pos ≤ (c.gates.getD b default).effectivePosition b) ∧
        (((∀ t, t < b →
            ¬ (((c.gates.getD t default).qubitsList.any fun q =>
                  ts.contains q) = true ∧
               (c.gates.getD t default).effectivePosition t < pos)) ∧
          QuantumCircuit.findInsertIndex c.gates ts pos = c.gates.length) ∨
         (∃ t, t < b ∧
            (((c.gates.getD t default).qubitsList.any fun q =>
                ts.contains q) = true ∧
             (c.gates.getD t default).effectivePosition t < pos) ∧
            QuantumCircuit.findInsertIndex c.gates ts pos = t + 1 ∧
            (∀ u, t < u → u < b →
              ¬ (((c.gates.getD u default).qubitsList.any fun q =>
                    ts.contains q) = true ∧
                 (c.gates.getD u default).effectivePosition u < pos))))) := by
  have hcommon : ∀ tail : Except QError QuantumCircuit,
      (match QuantumGates.getGateInfo gateName with
        | none => Except.error QError.unknownGate
        | some gateInfo =>
          if ts.length ≠ gateInfo.qubits then Except.error QError.gateArityMismatch
          else if ¬ (∀ q ∈ ts, q < c.numQubits) then
            Except.error QError.qubitIndexOutOfRange
          else tail) = tail := by
    intro tail
    rw [hinfo]
    simp only
    rw [if_neg (not_not_intro hlen), if_neg (not_not_intro hrange)]
  constructor
  · intro hpos
    show (match QuantumGates.getGateInfo gateName with
      | none => Except.error QError.unknownGate
      | some gateInfo =>
        if ts.length ≠ gateInfo.qubits then Except.error QError.gateArityMismatch
        else if ¬ (∀ q ∈ ts, q < c.numQubits) then
          Except.error QError.qubitIndexOutOfRange
        else
          QuantumGates.getGate gateName ps.values >>= fun matrix =>
            match ps.position with
            | some position =>
                Except.ok {c with gates := (c.gates.insertIdx
                  (QuantumCircuit.findInsertIndex c.gates ts position)
                  (GateOp.quantum gateName ts ps matrix))}
            | none => Except.ok {c with gates :=
                c.gates ++ [GateOp.quantum gateName ts ps matrix]}) = _
    rw [hcommon, hgate, Except.bind_ok, hpos]
  · intro pos hpos
    constructor
    · show (match QuantumGates.getGateInfo gateName with
        | none => Except.error QError.unknownGate
        | some gateInfo =>
          if ts.length ≠ gateInfo.qubits then Except.error QError.gateArityMismatch
          else if ¬ (∀ q ∈ ts, q < c.numQubits) then
            Except.error QError.qubitIndexOutOfRange
          else
            QuantumGates.getGate gateName ps.values >>= fun matrix =>
              match ps.position with
              | some position =>
                  Except.ok {c with gates := (c.gates.insertIdx
                    (QuantumCircuit.findInsertIndex c.gates ts position)
                    (GateOp.quantum gateName ts ps matrix))}
              | none => Except.ok {c with gates :=
                  c.gates ++ [GateOp.quantum gateName ts ps matrix]}) = _
      rw [hcommon, hgate, Except.bind_ok, hpos]
    · obtain ⟨b, h1, h2, h3, h4⟩ :=
        insertScan_characterization ts pos c.gates 0 c.gates.length
      simp only [Nat.zero_add] at h2 h3 h4
      exact ⟨b, h1, h2, h3, h4⟩

/-- Witness for the C6 amended theorem: on a fresh 1-qubit circuit, adding
`H` without a position appends, and adding `H` with position 3 inserts at
the computed index. -/
theorem addGate_insertion_semantics_witness :
    ((QuantumCircuit.init 1).addGate "H" [0] ⟨none, []⟩ =
      .ok {QuantumCircuit.init 1 with gates :=
        (QuantumCircuit.init 1).gates ++
          [.quantum "H" [0] ⟨none, []⟩ QuantumGates.Hadamard]}) ∧
    ((QuantumCircuit.init 1).addGate "H" [0] ⟨some 3, []⟩ =
      .ok {QuantumCircuit.init 1 with gates :=
        ((QuantumCircuit.init 1).gates.insertIdx
          (QuantumCircuit.findInsertIndex (QuantumCircuit.init 1).gates [0] 3)
          (.quantum "H" [0] ⟨some 3, []⟩ QuantumGates.Hadamard))}) :=
  ⟨(addGate_insertion_semantics (QuantumCircuit.init 1) "H" [0] ⟨none, []⟩
      ⟨"Hadamard", 1, 0⟩ QuantumGates.Hadamard rfl rfl (by decide) rfl).1 rfl,
   ((addGate_insertion_semantics (QuantumCircuit.init 1) "H" [0] ⟨some 3, []⟩
      ⟨"Hadamard", 1, 0⟩ QuantumGates.Hadamard rfl rfl (by decide) rfl).2 3 rfl).1⟩

/-- C4: the claim says every catalog gate constructor yields a unitary
matrix of size `2^arity × 2^arity`, and in particular that `U(θ, φ, λ)` is a
2 × 2 matrix `M` with `M · M†` within `1e-10` of the identity.  The source's
`U` builds its nested array with four rows of two entries, so the resulting
matrix is 4 × 2 — not square, not 2 × 2, and not unitary: already at
`θ = φ = λ = 0` the entry `(3, 1)` of `M · M†` is `1` where the identity has
`0`. -/
theorem U_gate_is_malformed :
    (QuantumGates.U 0 0 0).rows = 4 ∧ (QuantumGates.U 0 0 0).cols = 2 ∧
      ¬ (QuantumGates.U 0 0 0).isUnitary (1 / 10 ^ 10) := by
  have hr : (QuantumGates.U 0 0 0).rows = 4 := rfl
  have hc : (QuantumGates.U 0 0 0).cols = 2 := rfl
  refine ⟨hr, hc, fun h => ?_⟩
  have h31 := h 3 (by rw [hr]; norm_num) 1 (by rw [hc]; norm_num)
  have hval :
      ((((QuantumGates.U 0 0 0).multiply (QuantumGates.U 0 0 0).dagger).data 3 1).subtract
        ((Matrix.identity (QuantumGates.U 0 0 0).rows).data 3 1)) = ⟨1, 0⟩ := by
    unfold QuantumGates.U Matrix.multiply Matrix.dagger Matrix.transpose
      Matrix.conjugate Matrix.identity Matrix.fromArray
    simp [Complex.fromPolar, Real.cos_zero, Real.sin_zero, Finset.sum_range_succ,
      Complex.multiply, Complex.conjugate, Complex.subtract, Complex.zero_def,
      Complex.add_def, List.getD]
  rw [hval] at h31
  have hmag : (Complex.magnitude ⟨1, 0⟩) = 1 := by
    unfold Complex.magnitude
    rw [show (1:ℝ) * 1 + 0 * 0 = 1 by ring, Real.sqrt_one]
  rw [hmag] at h31
  norm_num at h31

end QuantumLab
